import Mathlib

/-!
# Verification of `fpds` (src/src/fpds/core/parser.py)

A shallow embedding of the FPDS ATOM-feed client in Lean 4, together with
theorems settling the frozen claims about its specification.

Modelling conventions:
* Python `xml.etree.ElementTree.Element` trees become the inductive `XTree`
  (tag string in Clark form `{uri}local`, attribute dictionary, optional
  text, children).
* Python dictionaries become insertion-ordered association lists
  (`Dict α := List (String × α)`); `d[k] = v` is `dinsert` (update in place
  when the key exists, append otherwise), `del d[k]` is `derase`,
  `d1.update(d2)` is `dupdate`.
* Machine integers are `Nat`/`Int` (Python integers are unbounded, so no
  wrap-around modelling is needed).
* Fallible code returns `Except PyErr _`; Python has no handlers anywhere in
  `parser.py`, so every error propagates via monadic bind.
* Network transport (`requests.get` + `response.content`) is abstracted as a
  function `Option String → Except PyErr RawContent` passed explicitly: the
  argument is the `url` parameter of `send_request` (`none` = default
  `url_base`, line 163-176).
-/

set_option autoImplicit false

namespace Fpds

/-- Python exception kinds that can propagate out of `parser.py`.
`indexError` (`last_link[0]`, line 285), `keyError` (`attrib["href"]`),
`attributeError` (`.group(1)` on a failed `re.search`), `valueError`
(`int(...)` on a non-numeric string, and the `fpdsRequest.__init__`
validation errors, lines 128-143), `parseError`
(`ElementTree.fromstring` on malformed bytes, line 37), `httpError`
(`response.raise_for_status()`, line 176).  `paginationMetadataError` is
*not* raised anywhere in the source: it is the name the spec's error
taxonomy (§7) gives to seed-metadata failures, included here only so that
statements can compare the spec's wording with what the code actually
raises. -/
inductive PyErr : Type where
  | valueError
  | indexError
  | keyError
  | attributeError
  | parseError
  | httpError
  | paginationMetadataError
deriving DecidableEq, Repr

/-- `xml.etree.ElementTree.Element`: tag (Clark form, e.g. `{uri}entry`),
attribute dictionary (insertion-ordered, unique keys when produced by a real
parse), `.text` (`None` becomes `none`) and the list of child elements.
Tag and attribute strings coming from a real XML parse contain no newline
characters (the parser rejects them in names and normalizes them in
attribute values); the regex models below rely on this. -/
inductive XTree : Type where
  | node (tag : String) (attrib : List (String × String))
      (text : Option String) (children : List XTree)
deriving Repr

/-- `element.tag` -/
def XTree.tag : XTree → String
  | .node t _ _ _ => t

/-- `element.attrib` -/
def XTree.attrib : XTree → List (String × String)
  | .node _ a _ _ => a

/-- `element.text` -/
def XTree.text : XTree → Option String
  | .node _ _ x _ => x

/-- the list of direct children of an element -/
def XTree.children : XTree → List XTree
  | .node _ _ _ c => c

mutual

/-- `element.iter()` (used through `parse_items`, lines 230-233): the
element itself followed by all descendants, in depth-first document
(pre-)order. -/
def XTree.preorder : XTree → List XTree
  | .node t a x c => .node t a x c :: preorderList c

/-- `preorder` mapped over a list of sibling subtrees, concatenated. -/
def preorderList : List XTree → List XTree
  | [] => []
  | t :: ts => t.preorder ++ preorderList ts

end

/-- Python (insertion-ordered) dictionary with `String` keys. -/
abbrev Dict (α : Type) : Type := List (String × α)

/-- `d[key]` as a total lookup: first (= unique, for real dicts) binding. -/
def dlookup {α : Type} : Dict α → String → Option α
  | [], _ => none
  | (k, v) :: d, key => if k = key then some v else dlookup d key

/-- `d[key] = val`: update in place when the key exists (Python dicts keep
the original insertion position), append at the end otherwise. -/
def dinsert {α : Type} : Dict α → String → α → Dict α
  | [], key, val => [(key, val)]
  | (k, v) :: d, key, val =>
      if k = key then (k, val) :: d else (k, v) :: dinsert d key val

/-- `del d[key]`: drop the binding(s) for `key` (unique in a real dict). -/
def derase {α : Type} : Dict α → String → Dict α
  | [], _ => []
  | (k, v) :: d, key => if k = key then derase d key else (k, v) :: derase d key

/-- `d1.update(d2)` (line 321): insert every binding of `d2`, in order. -/
def dupdate {α : Type} (d1 d2 : Dict α) : Dict α :=
  d2.foldl (fun acc p => dinsert acc p.1 p.2) d1

/-! ## Namespace resolver (`_get_full_namespace`, `namespace_dict`) -/

/-- Everything strictly before the *last* `'}'` of the list (callers guard
on a `'}'` being present). -/
def beforeLastBrace : List Char → List Char
  | [] => []
  | c :: cs => if cs.contains '}' then c :: beforeLastBrace cs else []

/-- `fpdsXML._get_full_namespace` (lines 241-253):
`re.match(r"\x7b(.*)\x7d", element.tag)` with a greedy `(.*)`, returning
`group(1)` on a match and `''` otherwise.  The anchored match succeeds
exactly when the tag starts with `'{'` and a `'}'` follows; the greedy
group then spans up to the *last* `'}'`.  (`.` not matching a newline is
irrelevant here: parsed XML tags contain no newline.) -/
def getFullNamespace (tag : String) : String :=
  match tag.toList with
  | '{' :: rest => if rest.contains '}' then String.mk (beforeLastBrace rest) else ""
  | _ => ""

/-- The `for element in ...: if _namespace not in namespaces: append` loop
of `namespace_dict` (lines 269-273): distinct values in first-seen order. -/
def firstSeen (l : List String) : List String :=
  l.foldl (fun acc x => if x ∈ acc then acc else acc ++ [x]) []

/-- The ordered list of distinct namespace URIs of a document, in
first-encounter pre-order document order. -/
def namespaceList (t : XTree) : List String :=
  firstSeen (t.preorder.map (fun e => getFullNamespace e.tag))

/-- `fpdsXML.namespace_dict` (lines 261-276):
`{f'ns{idx}': ns for idx, ns in enumerate(namespaces)}`. -/
def namespace_dict (t : XTree) : Dict String :=
  (namespaceList t).enum.map (fun p => ("ns" ++ toString p.1, p.2))

/-! ## Tag cleaning (`_ElementAttributes.clean_tag`) -/

/-- The alternation list of the pattern `"\x7b(" + "|".join(vals) + ")\x7d"`
(line 67-69): `"|".join([])` is `""`, which yields one empty alternative;
otherwise the alternatives are the values themselves, in dictionary order. -/
def altList (vals : List String) : List (List Char) :=
  match vals with
  | [] => [[]]
  | _ => vals.map String.toList

/-- At the current position, the length of the first alternative `v` (in
pattern order, as Python's regex alternation tries them) such that
`"{" ++ v ++ "}"` is a prefix of the remaining input; `none` when no
alternative matches here. -/
def nsMatchLen (alts : List (List Char)) (cs : List Char) : Option Nat :=
  alts.findSome? (fun v =>
    if ('{' :: (v ++ ['}'])).isPrefixOf cs then some (v.length + 2) else none)

/-- `re.sub(PATTERN, "", tag)`: scan left to right, removing every
non-overlapping occurrence of `{<alternative>}`, continuing after each
match.  Namespace URIs are modelled as literal strings (the source does not
`re.escape` them; for URIs free of regex metacharacters the behaviours
coincide).  The `fuel` argument (instantiated with the input length, which
bounds the number of scan steps, each consuming at least one character)
only makes the structural recursion explicit. -/
def subNsAux (alts : List (List Char)) : Nat → List Char → List Char
  | 0, _ => []
  | _ + 1, [] => []
  | fuel + 1, c :: rest =>
    match nsMatchLen alts (c :: rest) with
    | some n => subNsAux alts fuel (rest.drop (n - 1))
    | none => c :: subNsAux alts fuel rest

/-- `_ElementAttributes.clean_tag` (lines 61-71): strip every
`{<namespace>}` occurrence (for the namespaces of the dictionary) from the
tag. -/
def clean_tag (nsd : Dict String) (tag : String) : String :=
  String.mk (subNsAux (altList (nsd.map Prod.snd)) tag.toList.length tag.toList)

/-! ## Entry flattener (`_ElementAttributes._generate_nested_attribute_dict`,
`fpdsXML.get_entry_data`) -/

/-- `_generate_nested_attribute_dict` (lines 73-102), with the element
threaded through so that mutation (or its absence) is visible:

    attributes = self.element.attrib          -- alias, never reassigned
    _attributes_copy = attributes.copy()
    tag = self.clean_tag
    for key in attributes:
        nested_key = f"tag__key"
        _attributes_copy[nested_key] = attributes[key]
        del _attributes_copy[key]
    _attributes_copy[tag] = self.element.text
    return _attributes_copy

The loop reads and writes only `_attributes_copy` (the fold's second
component); the alias `attributes` (the first component) is left untouched,
and the returned element carries it back as its attribute dictionary.
Values in the result are `Option String` because `element.text` can be
`None`; original attribute values are wrapped in `some`.  The read
`attributes[key]` is modelled as the total `dlookup` (the key is always
present, real dicts having unique keys). -/
def genNestedFull (nsd : Dict String) (e : XTree) :
    Dict (Option String) × XTree :=
  match e with
  | .node etag eattrib etext echildren =>
    let tag := clean_tag nsd etag
    let copy0 : Dict (Option String) := eattrib.map (fun p => (p.1, some p.2))
    let st := eattrib.foldl
      (fun st kv =>
        (st.1, derase (dinsert st.2 (tag ++ "__" ++ kv.1) (dlookup st.1 kv.1)) kv.1))
      (eattrib, copy0)
    (dinsert st.2 tag etext, .node etag st.1 etext echildren)

/-- The dictionary returned by `_generate_nested_attribute_dict`. -/
def generate_nested_attribute_dict (nsd : Dict String) (e : XTree) :
    Dict (Option String) :=
  (genNestedFull nsd e).1

/-- The element as it stands after `_generate_nested_attribute_dict` ran. -/
def elementAfterGen (nsd : Dict String) (e : XTree) : XTree :=
  (genNestedFull nsd e).2

/-- The flat key/value write sequence one visited element contributes, in
write order: one `tag__attr` pair per attribute (in attribute order), then
the `tag ↦ text` pair.  This is the spec-level description (§4.2) of what
one element adds to a record; the claims compare the code's dictionary
against it. -/
def elemWrites (nsd : Dict String) (e : XTree) : List (String × Option String) :=
  e.attrib.map (fun kv => (clean_tag nsd e.tag ++ "__" ++ kv.1, some kv.2)) ++
    [(clean_tag nsd e.tag, e.text)]

/-- All writes of one entry, in depth-first document order. -/
def entryWrites (nsd : Dict String) (entry : XTree) : List (String × Option String) :=
  (entry.preorder.map (elemWrites nsd)).flatten

/-- Last-write-wins lookup over a write sequence. -/
def lwwLookup {α : Type} (ws : List (String × α)) (key : String) : Option α :=
  ws.foldl (fun acc p => if p.1 = key then some p.2 else acc) none

/-- The `entry_tags = dict(); for tag in entry.iter(): entry_tags.update(...)`
loop of `get_entry_data` (lines 316-321), for one entry. -/
def flatten_entry (nsd : Dict String) (entry : XTree) : Dict (Option String) :=
  entry.preorder.foldl
    (fun acc e => dupdate acc (generate_nested_attribute_dict nsd e)) []

/-- `'{uri}local'` for the URI registered under `ns0` (ElementTree expands
the path prefix `ns0:` this way; an empty URI selects the plain local
name). -/
def ns0Tag (nsd : Dict String) (localName : String) : String :=
  match dlookup nsd "ns0" with
  | some uri => if uri = "" then localName else "\x7b" ++ uri ++ "\x7d" ++ localName
  | none => localName

/-- `tree.findall('.//ns0:<local>', namespace_dict)`: all strict
descendants of the root, in document order, whose tag is the expanded
name. -/
def findallNs0 (nsd : Dict String) (localName : String) (t : XTree) : List XTree :=
  (t.preorder.drop 1).filter (fun e => e.tag == ns0Tag nsd localName)

/-- `fpdsXML.get_atom_feed_entries` (lines 303-310). -/
def get_atom_feed_entries (t : XTree) : List XTree :=
  findallNs0 (namespace_dict t) "entry" t

/-- `fpdsXML.get_entry_data` (lines 312-324): one flattened record per
`entry` element of the document. -/
def get_entry_data (t : XTree) : List (Dict (Option String)) :=
  (get_atom_feed_entries t).map (flatten_entry (namespace_dict t))

/-! ## Pagination metadata (`total_record_count`) -/

/-- `re.search(r"start=(.*?)$", href)` (line 26 and 285): the lazy group,
anchored at the end, captures everything after the *first* occurrence of
`"start="`; no occurrence means no match (`None`).  (`$`/`.` newline
subtleties do not arise: parsed attribute values contain no newline.) -/
def afterStartEq : List Char → Option (List Char)
  | [] => none
  | c :: cs =>
    if ("start=".toList).isPrefixOf (c :: cs) then some ((c :: cs).drop 6)
    else afterStartEq cs

/-- Python `int()` digit test. -/
def digitVal (c : Char) : Option Nat :=
  if '0' ≤ c ∧ c ≤ '9' then some (c.toNat - '0'.toNat) else none

/-- Digits of an integer literal after the first one: single underscores
are allowed between digits, nothing else. -/
def parseDigitsAux (acc : Nat) : List Char → Option Nat
  | [] => some acc
  | ['_'] => none
  | '_' :: c :: cs =>
    match digitVal c with
    | some d => parseDigitsAux (acc * 10 + d) cs
    | none => none
  | c :: cs =>
    match digitVal c with
    | some d => parseDigitsAux (acc * 10 + d) cs
    | none => none

/-- A nonempty digit run (with optional single grouping underscores). -/
def parseDigitsStart : List Char → Option Nat
  | [] => none
  | c :: cs =>
    match digitVal c with
    | some d => parseDigitsAux d cs
    | none => none

/-- Python whitespace stripped by `int(str)`. -/
def isPySpace (c : Char) : Bool :=
  c = ' ' || c = '\t' || c = '\n' || c = '\x0d' || c = '\x0b' || c = '\x0c'

/-- `int(s)` on a decimal string: surrounding whitespace, an optional
sign, then digits (underscores allowed between digits); `none` models the
`ValueError` on anything else.  (Unicode digit forms are out of scope.) -/
def pyIntParse (s : String) : Option Int :=
  let cs := ((s.toList.dropWhile isPySpace).reverse.dropWhile isPySpace).reverse
  match cs with
  | '+' :: rest => (parseDigitsStart rest).map (fun n => (n : Int))
  | '-' :: rest => (parseDigitsStart rest).map (fun n => -(n : Int))
  | rest => (parseDigitsStart rest).map (fun n => (n : Int))

/-- `element.get(key)`: attribute value or `None`. -/
def elementGet (e : XTree) (key : String) : Option String :=
  dlookup e.attrib key

/-- `fpdsXML.total_record_count` (lines 278-286):

    links = self.tree.findall('.//ns0:link', self.namespace_dict)
    last_link = [link for link in links if link.get("rel") == "last"]
    record_count = re.search(LAST_PAGE_REGEX, last_link[0].attrib["href"])
    return int(record_count.group(1))

Failure modes, in evaluation order: `last_link[0]` on an empty list raises
`IndexError`; `attrib["href"]` raises `KeyError`; `.group(1)` on a failed
search raises `AttributeError`; `int(...)` on a non-numeric capture raises
`ValueError`.  No `PaginationMetadataError` exists in the source. -/
def total_record_count (t : XTree) : Except PyErr Int :=
  let nsd := namespace_dict t
  let links := findallNs0 nsd "link" t
  let lastLinks := links.filter (fun l => elementGet l "rel" == some "last")
  match lastLinks with
  | [] => .error .indexError
  | l :: _ =>
    match dlookup l.attrib "href" with
    | none => .error .keyError
    | some href =>
      match afterStartEq href.toList with
      | none => .error .attributeError
      | some suffix =>
        match pyIntParse (String.mk suffix) with
        | none => .error .valueError
        | some n => .ok n

/-! ## Pagination planner (`response_size`, `pagination_links`) -/

/-- `fpdsMixin.url_base` (lines 29-31). -/
def url_base : String :=
  "https://www.fpds.gov/ezsearch/FEEDS/ATOM?FEEDNAME=PUBLIC"

/-- `fpdsXML.response_size` (lines 255-259): the fixed page size. -/
def response_size : Nat := 10

/-- Python `range(0, stop, step)` for a positive `step`: the multiples of
`step` strictly below `stop` (empty when `stop ≤ 0`). -/
def pyRangeTo (stop : Int) (step : Nat) : List Int :=
  (List.range ((stop.toNat + (step - 1)) / step)).map
    (fun k : Nat => (k : Int) * (step : Int))

/-- `range(0, self.total_record_count + resp_size, resp_size)`
(lines 293-296). -/
def pageRange (total : Int) : List Int :=
  pyRangeTo (total + response_size) response_size

/-- One pagination link: `f"...&q=params&start=num"` (line 299). -/
def mkLink (params : String) (num : Int) : String :=
  url_base ++ "&q=" ++ params ++ "&start=" ++ toString num

/-- `fpdsXML.pagination_links` (lines 288-301), given the already-extracted
total record count. -/
def pagination_links_of (params : String) (total : Int) : List String :=
  (pageRange total).map (mkLink params)

/-- `fpdsXML.pagination_links` including the `total_record_count`
extraction it performs (and whose exceptions it propagates). -/
def pagination_links (params : String) (t : XTree) : Except PyErr (List String) :=
  (total_record_count t).map (pagination_links_of params)

/-! ## Fetch pipeline (`fpdsRequest`) -/

/-- A raw HTTP response body, seen only through whether
`ElementTree.fromstring` accepts it: either well-formed XML (with its
parse tree) or malformed bytes. -/
inductive RawContent : Type where
  | wellFormed (t : XTree)
  | malformed
deriving Repr

/-- `fpdsMixin.convert_to_lxml_tree` / `ElementTree.fromstring` (lines
33-38): the stdlib parser, modelled by its contract (spec §4.3): the
parsed tree on well-formed input, `ParseError` on malformed input. -/
def convert_to_lxml_tree : RawContent → Except PyErr XTree
  | .wellFormed t => .ok t
  | .malformed => .error .parseError

/-- `fpdsRequest.send_request` (lines 163-182): transport (abstracted as
`fb`, which may itself fail with `httpError` from `raise_for_status`)
followed by parsing; the resulting tree is appended to `self.content`.
`url = none` is the seed request against `url_base`. -/
def send_request (fb : Option String → Except PyErr RawContent)
    (url : Option String) : Except PyErr XTree := do
  let r ← fb url
  convert_to_lxml_tree r

/-- The `for link in links: self.send_request(link)` loop (lines 195-196):
strictly sequential, one blocking request at a time; the first failure
aborts the remainder. -/
def fetchPages (fb : Option String → Except PyErr RawContent) :
    List String → Except PyErr (List XTree)
  | [] => .ok []
  | l :: ls => do
    let t ← send_request fb (some l)
    let rest ← fetchPages fb ls
    pure (t :: rest)

/-- `fpdsRequest.create_content_iterable` (lines 184-196): seed request,
pagination links from the seed, `links.pop(0)` (the seed page is dropped
from the fetch list), then the sequential fetch loop; `self.content` ends
up as the seed tree followed by the fetched page trees. -/
def create_content_iterable (fb : Option String → Except PyErr RawContent)
    (params : String) : Except PyErr (List XTree) := do
  let seed ← send_request fb none
  let links0 ← pagination_links params seed
  let rest ← fetchPages fb (links0.drop 1)
  pure (seed :: rest)

/-- `fpdsRequest.parse_content` (lines 198-207): all pages fetched, then
`get_entry_data` per tree and `chain.from_iterable` over the per-tree
record lists. -/
def parse_content (fb : Option String → Except PyErr RawContent)
    (params : String) : Except PyErr (List (Dict (Option String))) := do
  let content ← create_content_iterable fb params
  pure ((content.map get_entry_data).flatten)

/-! ## `fpdsRequest.__init__` (lines 123-145)

The `FPDS_FIELDS_CONFIG` table and the helpers `filter_config_dict` /
`raw_literal_regex_match` live in `fpds.config` / `fpds.utilities`, which
the spec (§1) places out of scope ("keyword/field validation against a
configuration table" is an external collaborator).  They are abstracted as
the `fields` table and the regex-match oracle `rm` below; the claims about
`__init__` do not depend on their contents. -/

/-- One entry of the field configuration table: `name`, `regex`,
`quotes`. -/
structure FieldCfg : Type where
  name : String
  regex : String
  quotes : Bool
deriving Repr, DecidableEq

/-- The state a successfully constructed `fpdsRequest` carries. -/
structure RequestState : Type where
  cli_run : Bool
  kwargs : List (String × String)
deriving Repr, DecidableEq

/-- `self.kwargs[kwarg] = f'"{value}"'` (line 145). -/
def quoteValue (v : String) : String := "\"" ++ v ++ "\""

/-- The `for kwarg, value in self.kwargs.items():` validation loop
(lines 133-145): unknown names and regex mismatches raise `ValueError`;
values of `quotes` fields are rewritten in place. -/
def validate_fields_loop (fields : List FieldCfg) (rm : String → String → Bool) :
    List (String × String) → Except PyErr (List (String × String))
  | [] => .ok []
  | (k, v) :: rest =>
    if (fields.map FieldCfg.name).contains k then
      match fields.find? (fun f => f.name == k) with
      | none => .error .valueError
      | some cfg =>
        if rm cfg.regex v then do
          let restOut ← validate_fields_loop fields rm rest
          pure ((k, if cfg.quotes then quoteValue v else v) :: restOut)
        else .error .valueError
    else .error .valueError

/-- `fpdsRequest.__init__` (lines 123-145): the kwargs-nonempty check runs
first and unconditionally; the per-field validation only runs when
`cli_run` is false. -/
def fpdsRequest_init (cli_run : Bool) (kwargs : List (String × String))
    (fields : List FieldCfg) (rm : String → String → Bool) :
    Except PyErr RequestState :=
  if kwargs.isEmpty then .error .valueError
  else if cli_run then .ok ⟨cli_run, kwargs⟩
  else (validate_fields_loop fields rm kwargs).map
    (fun ks => ⟨cli_run, ks⟩)

/-! ## Timing model of the fetch loop

`create_content_iterable` issues the page requests with a plain `for`
loop of synchronous `send_request` calls (lines 195-196): request `i`
returns before request `i+1` starts.  The `i`-th request is therefore
in flight exactly during the logical time slot `[i, i+1)`. -/

/-- The in-flight interval of each page request of the sequential loop. -/
def seqTrace (links : List String) : List (Nat × Nat) :=
  (List.range links.length).map (fun i => (i, i + 1))

/-- How many requests of a trace are in flight at a given instant. -/
def outstandingAt (tr : List (Nat × Nat)) (now : Nat) : Nat :=
  (tr.filter (fun p => decide (p.1 ≤ now) && decide (now < p.2))).length

/-- Whether two or more requests are ever simultaneously in flight
(instants beyond the trace horizon have nothing in flight). -/
def everConcurrent (tr : List (Nat × Nat)) : Bool :=
  (List.range (tr.length + 1)).any (fun now => 2 ≤ outstandingAt tr now)

/-- The largest number of simultaneously in-flight requests. -/
def maxOutstanding (tr : List (Nat × Nat)) : Nat :=
  ((List.range (tr.length + 1)).map (outstandingAt tr)).foldl Nat.max 0

/-! ## Helper lemmas -/

/-- Distinct elements in first-encounter order, written as the direct
recursion the spec describes (§4.1: "maintain an ordered set of distinct
URIs in first-seen order"). -/
def dedupFirst : List String → List String
  | [] => []
  | x :: xs => x :: dedupFirst (xs.filter (fun y => decide (y ≠ x)))
  termination_by l => l.length
  decreasing_by
    simp only [List.length_cons]
    exact Nat.lt_succ_of_le (List.length_filter_le _ _)

/-! ### Pagination arithmetic -/

/-! ## Fixtures and auxiliary predicates used by concrete statements -/

/-- Whether a string contains two consecutive underscores, i.e. the
substring `"__"`. -/
def hasDunderChars : List Char → Bool
  | [] => false
  | '_' :: '_' :: _ => true
  | _ :: cs => hasDunderChars cs

/-- `"__"` occurs in `s`. -/
def hasDunder (s : String) : Bool := hasDunderChars s.toList

/-- Lines 282-283: the `link` elements of the document whose `rel`
attribute equals `"last"`. -/
def lastLinksOf (t : XTree) : List XTree :=
  (findallNs0 (namespace_dict t) "link" t).filter
    (fun l => elementGet l "rel" == some "last")

/-- A seed document whose `last` link reports `start=25`. -/
def seedDoc25 : XTree :=
  .node "\x7bu\x7dfeed" [] none
    [.node "\x7bu\x7dlink" [("rel", "last"), ("href", "https://x?start=25")] none [],
     .node "\x7bu\x7dentry" [] none [.node "\x7bu\x7dtitle" [] (some "x") []]]

/-- An entry-free page document. -/
def pageDoc : XTree := .node "\x7bu\x7dfeed" [] none []

/-- A transport returning the `start=25` seed and well-formed empty
pages. -/
def fbGood : Option String → Except PyErr RawContent
  | none => .ok (.wellFormed seedDoc25)
  | some _ => .ok (.wellFormed pageDoc)

/-- A seed document with no `rel="last"` link. -/
def seedNoLast : XTree :=
  .node "\x7bu\x7dfeed" [] none [.node "\x7bu\x7dentry" [] none []]

/-- A seed document whose `last` link has no `start=` in its `href`. -/
def seedNoStart : XTree :=
  .node "\x7bu\x7dfeed" [] none
    [.node "\x7bu\x7dlink" [("rel", "last"), ("href", "https://x?offset=25")] none []]

/-- A transport returning the no-`last`-link seed. -/
def fbNoLast : Option String → Except PyErr RawContent
  | none => .ok (.wellFormed seedNoLast)
  | some _ => .ok (.wellFormed pageDoc)

/-- A transport whose seed response body is malformed XML. -/
def fbBadSeed : Option String → Except PyErr RawContent
  | none => .ok .malformed
  | some _ => .ok (.wellFormed pageDoc)

/-- A transport whose page bodies (after a good seed) are malformed. -/
def fbBadPage : Option String → Except PyErr RawContent
  | none => .ok (.wellFormed seedDoc25)
  | some _ => .ok .malformed

/-- The spec's single-element example entry
`<contractActionType description="BPA">E</contractActionType>`. -/
def exampleEntry : XTree :=
  .node "contractActionType" [("description", "BPA")] (some "E") []

/-- An attribute-less element whose tag itself contains `"__"`. -/
def dunderTagElem : XTree := .node "a__b" [] (some "t") []

/-- An element one of whose attribute names collides with the nested key
`tag__attr` generated for another of its attributes. -/
def collidingEntry : XTree := .node "a" [("b", "B"), ("a__b", "C")] (some "T") []

/-- A document whose root is namespaced and whose child carries no
namespace. -/
def mixedNsDoc : XTree :=
  .node "\x7bu\x7dfeed" [] none [.node "plain" [] none []]

/-! ## Theorems -/

/-- `total_record_count` unfolded through `lastLinksOf` (definitional). -/
theorem total_record_count_def (t : XTree) :
    total_record_count t =
      match lastLinksOf t with
      | [] => .error .indexError
      | l :: _ =>
        match dlookup l.attrib "href" with
        | none => .error .keyError
        | some href =>
          match afterStartEq href.toList with
          | none => .error .attributeError
          | some suffix =>
            match pyIntParse (String.mk suffix) with
            | none => .error .valueError
            | some n => .ok n := rfl

/-- A tag that does not start with `'{'` carries no namespace: the
anchored regex match fails and `_get_full_namespace` returns `''`. -/
theorem getFullNamespace_of_head (tag : String)
    (h : tag.toList.head? ≠ some '{') : getFullNamespace tag = "" := by
  unfold getFullNamespace
  split
  · next heq =>
      rw [heq] at h
      simp at h
  · rfl

@[simp] theorem preorder_node (t : String) (a : List (String × String))
    (x : Option String) (c : List XTree) :
    (XTree.node t a x c).preorder = XTree.node t a x c :: preorderList c := rfl

@[simp] theorem dlookup_nil {α : Type} (key : String) :
    dlookup ([] : Dict α) key = none := rfl

@[simp] theorem dlookup_cons {α : Type} (k key : String) (v : α) (d : Dict α) :
    dlookup ((k, v) :: d) key = if k = key then some v else dlookup d key := rfl

theorem dlookup_dinsert {α : Type} (d : Dict α) (k key : String) (v : α) :
    dlookup (dinsert d k v) key = if k = key then some v else dlookup d key := by
  induction d with
  | nil => simp [dinsert, dlookup]
  | cons p d ih =>
      obtain ⟨k', v'⟩ := p
      by_cases h : k' = k
      · subst h
        by_cases h2 : k' = key
        · subst h2
          simp [dinsert, dlookup]
        · simp [dinsert, dlookup, h2]
      · by_cases h2 : k' = key
        · subst h2
          have h3 : ¬ k = k' := fun hh => h hh.symm
          simp [dinsert, dlookup, h, h3]
        · simp [dinsert, dlookup, h, h2, ih]

theorem dlookup_derase {α : Type} (d : Dict α) (k key : String) :
    dlookup (derase d k) key = if k = key then none else dlookup d key := by
  induction d with
  | nil => simp [derase, dlookup]
  | cons p d ih =>
      obtain ⟨k', v'⟩ := p
      by_cases h : k' = k
      · subst h
        by_cases h2 : k' = key
        · subst h2
          simp [derase, ih]
        · simp [derase, dlookup, h2, ih]
      · by_cases h2 : k' = key
        · subst h2
          have h3 : ¬ k = k' := fun hh => h hh.symm
          simp [derase, dlookup, h, h3]
        · simp [derase, dlookup, h, h2, ih]

/-- When the key is fresh, `dinsert` is an append. -/
theorem dinsert_eq_append {α : Type} (d : Dict α) (key : String) (v : α)
    (h : ∀ p ∈ d, p.1 ≠ key) : dinsert d key v = d ++ [(key, v)] := by
  induction d with
  | nil => simp [dinsert]
  | cons p d ih =>
      obtain ⟨k', v'⟩ := p
      have hk : k' ≠ key := h (k', v') (by simp)
      simp only [dinsert, hk, if_false, List.cons_append, List.cons.injEq, true_and]
      exact ih (fun q hq => h q (List.mem_cons_of_mem _ hq))

/-- When the key is absent, `derase` is the identity. -/
theorem derase_eq_self {α : Type} (d : Dict α) (key : String)
    (h : ∀ p ∈ d, p.1 ≠ key) : derase d key = d := by
  induction d with
  | nil => rfl
  | cons p d ih =>
      obtain ⟨k', v'⟩ := p
      have hk : k' ≠ key := h (k', v') (by simp)
      simp only [derase, hk, if_false, List.cons.injEq, true_and]
      exact ih (fun q hq => h q (List.mem_cons_of_mem _ hq))

/-- At any instant the sequential loop has exactly one request in flight
while it is still running, and none afterwards. -/
theorem outstandingAt_seqTrace (links : List String) (now : Nat) :
    outstandingAt (seqTrace links) now = if now < links.length then 1 else 0 := by
  unfold outstandingAt seqTrace
  induction links.length with
  | zero => simp
  | succ n ih =>
      rw [List.range_succ]
      simp only [List.map_append, List.filter_append, List.length_append, ih]
      by_cases h1 : now < n
      · have h2 : ¬ (n ≤ now) := by omega
        simp [h1, h2, Nat.lt_succ_of_lt h1]
      · by_cases h3 : now = n
        · subst h3
          simp [h1, Nat.lt_succ_self]
        · have h4 : ¬ (now < n + 1) := by omega
          simp [h1, h4]

theorem string_append_left_cancel {s a b : String} (h : s ++ a = s ++ b) :
    a = b := by
  have hd := congrArg String.data h
  simp only [String.data_append] at hd
  exact String.ext (List.append_cancel_left hd)

theorem tag_ne_nested (tag k : String) : tag ≠ tag ++ "__" ++ k := by
  intro h
  have hl := congrArg String.length h
  simp only [String.length_append] at hl
  have h2 : "__".length = 2 := rfl
  omega

theorem nested_inj {tag a b : String}
    (h : tag ++ "__" ++ a = tag ++ "__" ++ b) : a = b := by
  have : (tag ++ "__") ++ a = (tag ++ "__") ++ b := by
    simpa [String.append_assoc] using h
  exact string_append_left_cancel this

/-- Folding `dinsert` over a write list realizes last-write-wins lookup. -/
theorem dlookup_foldl_dinsert {α : Type} (ws : List (String × α)) (d : Dict α)
    (key : String) :
    dlookup (ws.foldl (fun acc p => dinsert acc p.1 p.2) d) key =
      ws.foldl (fun acc p => if p.1 = key then some p.2 else acc) (dlookup d key) := by
  induction ws generalizing d with
  | nil => rfl
  | cons w ws ih =>
      simp only [List.foldl_cons]
      rw [ih, dlookup_dinsert]

theorem dlookup_dupdate {α : Type} (d : Dict α) (ws : List (String × α))
    (key : String) :
    dlookup (dupdate d ws) key =
      ws.foldl (fun acc p => if p.1 = key then some p.2 else acc) (dlookup d key) :=
  dlookup_foldl_dinsert ws d key

theorem lwwLookup_nil {α : Type} (key : String) :
    lwwLookup ([] : List (String × α)) key = none := rfl

theorem dlookup_foldl_dinsert_nil {α : Type} (ws : List (String × α)) (key : String) :
    dlookup (ws.foldl (fun acc p => dinsert acc p.1 p.2) []) key = lwwLookup ws key :=
  dlookup_foldl_dinsert ws [] key

theorem lwwLookup_isSome_iff {α : Type} (ws : List (String × α)) (key : String) :
    (lwwLookup ws key).isSome ↔ key ∈ ws.map Prod.fst := by
  unfold lwwLookup
  induction ws using List.reverseRecOn with
  | nil => simp
  | append_singleton ws w ih =>
      rw [List.foldl_append]
      by_cases h : w.1 = key
      · simp [h]
      · have h2 : ¬ key = w.1 := fun hh => h hh.symm
        simp [h, h2, ih]

/-- First components are invariant under a fold whose step keeps them. -/
theorem foldl_fst_const {A B C : Type} (f : B × C → A → C) (l : List A)
    (s : B × C) :
    (l.foldl (fun st kv => (st.1, f st kv)) s).1 = s.1 := by
  induction l generalizing s with
  | nil => rfl
  | cons a l ih => simp [ih]

/-- A pair-state fold whose step never touches the first component is a
fold on the second component alone. -/
theorem foldl_pair_snd {A B C : Type} (f : B → C → A → C) (l : List A)
    (b : B) (c : C) :
    (l.foldl (fun st kv => (st.1, f st.1 st.2 kv)) (b, c)).2 =
      l.foldl (fun cp kv => f b cp kv) c := by
  induction l generalizing c with
  | nil => rfl
  | cons a l ih => simp [ih]

theorem derase_append {α : Type} (l1 l2 : Dict α) (key : String) :
    derase (l1 ++ l2) key = derase l1 key ++ derase l2 key := by
  induction l1 with
  | nil => rfl
  | cons p l1 ih =>
      obtain ⟨k, v⟩ := p
      by_cases h : k = key <;> simp [derase, h, ih]

theorem dlookup_of_mem_nodup {α : Type} {l : Dict α}
    (hnd : (l.map Prod.fst).Nodup) {k : String} {v : α} (h : (k, v) ∈ l) :
    dlookup l k = some v := by
  induction l with
  | nil => cases h
  | cons p l ih =>
      obtain ⟨k', v'⟩ := p
      rcases List.mem_cons.mp h with h1 | h1
      · cases h1
        simp [dlookup]
      · have hk : k' ≠ k := by
          intro hh
          subst hh
          exact (List.nodup_cons.mp hnd).1
            (List.mem_map.mpr ⟨(k', v), h1, rfl⟩)
        simp [dlookup, hk]
        exact ih (List.nodup_cons.mp hnd).2 h1

/-- The `for key in attributes` rewrite loop of
`_generate_nested_attribute_dict`, in the collision-free case: with the
nested pairs `zs` already produced sitting behind the untouched original
bindings, processing `rest` replaces each original binding by its nested
counterpart, appended after `zs` in iteration order. -/
theorem gen_loop_eq (tag : String) (orig : List (String × String))
    (rest : List (String × String)) :
    ∀ (zs : Dict (Option String)),
    (rest.map Prod.fst).Nodup →
    (∀ p ∈ zs, ∀ k ∈ rest.map Prod.fst, p.1 ≠ k) →
    (∀ p ∈ zs, ∀ k ∈ rest.map Prod.fst, p.1 ≠ tag ++ "__" ++ k) →
    (∀ k ∈ rest.map Prod.fst, ∀ k' ∈ rest.map Prod.fst, tag ++ "__" ++ k ≠ k') →
    rest.foldl
      (fun cp kv =>
        derase (dinsert cp (tag ++ "__" ++ kv.1) (dlookup orig kv.1)) kv.1)
      (rest.map (fun p => (p.1, some p.2)) ++ zs)
      = zs ++ rest.map (fun kv => (tag ++ "__" ++ kv.1, dlookup orig kv.1)) := by
  induction rest with
  | nil => intro zs _ _ _ _; simp
  | cons kv rest ih =>
      intro zs hnd ha hb hd
      have hkv1 : kv.1 ∈ (kv :: rest).map Prod.fst := by simp
      have hfresh : ∀ p ∈ (kv :: rest).map (fun p => (p.1, some p.2)) ++ zs,
          p.1 ≠ tag ++ "__" ++ kv.1 := by
        intro p hp
        rcases List.mem_append.mp hp with hp | hp
        · rcases List.mem_map.mp hp with ⟨q, hq, rfl⟩
          have hq1 : q.1 ∈ (kv :: rest).map Prod.fst :=
            List.mem_map.mpr ⟨q, hq, rfl⟩
          exact fun hh => hd kv.1 hkv1 q.1 hq1 hh.symm
        · exact hb p hp kv.1 hkv1
      have hnotin : ∀ p ∈ rest.map (fun p => (p.1, some p.2)) ++
          (zs ++ [(tag ++ "__" ++ kv.1, dlookup orig kv.1)]), p.1 ≠ kv.1 := by
        intro p hp
        rcases List.mem_append.mp hp with hp | hp
        · rcases List.mem_map.mp hp with ⟨q, hq, rfl⟩
          intro hh
          have : kv.1 ∈ rest.map Prod.fst := by
            rw [← hh]
            exact List.mem_map.mpr ⟨q, hq, rfl⟩
          exact (List.nodup_cons.mp hnd).1 this
        · rcases List.mem_append.mp hp with hp | hp
          · exact ha p hp kv.1 hkv1
          · rcases List.mem_singleton.mp hp with rfl
            exact fun hh => hd kv.1 hkv1 kv.1 hkv1 hh
      have hstep :
          derase (dinsert ((kv :: rest).map (fun p => (p.1, some p.2)) ++ zs)
              (tag ++ "__" ++ kv.1) (dlookup orig kv.1)) kv.1
            = rest.map (fun p => (p.1, some p.2)) ++
                (zs ++ [(tag ++ "__" ++ kv.1, dlookup orig kv.1)]) := by
        rw [dinsert_eq_append _ _ _ hfresh]
        have hshape :
            (kv :: rest).map (fun p => (p.1, some p.2)) ++ zs ++
                [(tag ++ "__" ++ kv.1, dlookup orig kv.1)]
              = (kv.1, some kv.2) :: (rest.map (fun p => (p.1, some p.2)) ++
                  (zs ++ [(tag ++ "__" ++ kv.1, dlookup orig kv.1)])) := by
          simp [List.append_assoc]
        rw [hshape]
        show (if kv.1 = kv.1 then _ else _) = _
        rw [if_pos rfl]
        exact derase_eq_self _ _ hnotin
      rw [List.foldl_cons]
      have hinit : (kv :: rest).map (fun p => (p.1, some p.2)) ++ zs
          = (kv :: rest).map (fun p => (p.1, some p.2)) ++ zs := rfl
      rw [hstep]
      have ih' := ih (zs ++ [(tag ++ "__" ++ kv.1, dlookup orig kv.1)])
        (List.nodup_cons.mp hnd).2
        (by
          intro p hp k hk
          rcases List.mem_append.mp hp with hp | hp
          · exact ha p hp k (List.mem_cons_of_mem _ hk)
          · rcases List.mem_singleton.mp hp with rfl
            exact hd kv.1 hkv1 k (List.mem_cons_of_mem _ hk))
        (by
          intro p hp k hk
          rcases List.mem_append.mp hp with hp | hp
          · exact hb p hp k (List.mem_cons_of_mem _ hk)
          · rcases List.mem_singleton.mp hp with rfl
            intro hh
            have hk1 : kv.1 = k := nested_inj hh
            exact (List.nodup_cons.mp hnd).1 (hk1 ▸ hk))
        (by
          intro k hk k' hk'
          exact hd k (List.mem_cons_of_mem _ hk) k' (List.mem_cons_of_mem _ hk'))
      rw [ih']
      simp [List.append_assoc]

/-- In the collision-free case, `_generate_nested_attribute_dict` returns
exactly the element's write list (`tag__attr` pairs in attribute order,
then `tag ↦ text`), and leaves the element untouched. -/
theorem genNestedFull_eq (nsd : Dict String) (e : XTree)
    (hnd : (e.attrib.map Prod.fst).Nodup)
    (hd : ∀ k ∈ e.attrib.map Prod.fst, ∀ k' ∈ e.attrib.map Prod.fst,
        clean_tag nsd e.tag ++ "__" ++ k ≠ k') :
    genNestedFull nsd e = (elemWrites nsd e, e) := by
  obtain ⟨etag, eattrib, etext, ech⟩ := e
  simp only [XTree.attrib] at hnd hd
  simp only [XTree.tag] at hd
  unfold genNestedFull
  have hfst : (eattrib.foldl
      (fun st kv => (st.1, derase (dinsert st.2
        (clean_tag nsd etag ++ "__" ++ kv.1) (dlookup st.1 kv.1)) kv.1))
      (eattrib, eattrib.map (fun p => (p.1, some p.2)))).1 = eattrib :=
    foldl_fst_const _ eattrib _
  have hsnd := foldl_pair_snd
    (fun b c kv =>
      derase (dinsert c (clean_tag nsd etag ++ "__" ++ kv.1) (dlookup b kv.1)) kv.1)
    eattrib eattrib (eattrib.map (fun p => (p.1, some p.2)))
  have hloop := gen_loop_eq (clean_tag nsd etag) eattrib eattrib []
    hnd (by simp) (by simp) hd
  rw [List.append_nil] at hloop
  have hvals : eattrib.map
      (fun kv => (clean_tag nsd etag ++ "__" ++ kv.1, dlookup eattrib kv.1))
      = eattrib.map
        (fun kv => (clean_tag nsd etag ++ "__" ++ kv.1, some kv.2)) := by
    apply List.map_congr_left
    intro kv hkv
    have : dlookup eattrib kv.1 = some kv.2 :=
      dlookup_of_mem_nodup hnd (by simpa using hkv)
    rw [this]
  refine Prod.ext ?_ ?_
  · show dinsert (eattrib.foldl _ (eattrib, _)).2 (clean_tag nsd etag) etext
      = elemWrites nsd (.node etag eattrib etext ech)
    rw [hsnd, hloop, List.nil_append, hvals]
    rw [dinsert_eq_append]
    · rfl
    · intro p hp
      rcases List.mem_map.mp hp with ⟨q, hq, rfl⟩
      exact fun hh => tag_ne_nested (clean_tag nsd etag) q.1 hh.symm
  · show XTree.node etag (eattrib.foldl _ (eattrib, _)).1 etext ech
      = XTree.node etag eattrib etext ech
    rw [hfst]

/-- `_generate_nested_attribute_dict` never touches the element itself:
the loop deletes keys only from `_attributes_copy`, never from the aliased
`attributes` dictionary.  No well-formedness hypotheses are needed. -/
theorem elementAfterGen_eq (nsd : Dict String) (e : XTree) :
    elementAfterGen nsd e = e := by
  obtain ⟨etag, eattrib, etext, ech⟩ := e
  unfold elementAfterGen genNestedFull
  show XTree.node etag (eattrib.foldl _ (eattrib, _)).1 etext ech = _
  rw [foldl_fst_const]

/-- The record fold of `get_entry_data`, characterized as last-write-wins
over the concatenated write lists, provided each visited element is
collision-free. -/
theorem dlookup_flatten_fold (nsd : Dict String) (elems : List XTree)
    (hnd : ∀ e ∈ elems, (e.attrib.map Prod.fst).Nodup)
    (hd : ∀ e ∈ elems, ∀ k ∈ e.attrib.map Prod.fst,
        ∀ k' ∈ e.attrib.map Prod.fst, clean_tag nsd e.tag ++ "__" ++ k ≠ k')
    (d : Dict (Option String)) (key : String) :
    dlookup (elems.foldl
        (fun acc e => dupdate acc (generate_nested_attribute_dict nsd e)) d) key
      = ((elems.map (elemWrites nsd)).flatten).foldl
          (fun acc p => if p.1 = key then some p.2 else acc) (dlookup d key) := by
  induction elems generalizing d with
  | nil => simp
  | cons e elems ih =>
      have hgen : generate_nested_attribute_dict nsd e = elemWrites nsd e := by
        unfold generate_nested_attribute_dict
        rw [genNestedFull_eq nsd e (hnd e (by simp)) (hd e (by simp))]
      rw [List.foldl_cons, List.map_cons, List.flatten_cons, List.foldl_append,
        ih (fun x hx => hnd x (List.mem_cons_of_mem _ hx))
          (fun x hx => hd x (List.mem_cons_of_mem _ hx)),
        hgen, dlookup_dupdate]

theorem mem_dedupFirst (l : List String) (x : String) :
    x ∈ dedupFirst l ↔ x ∈ l := by
  match l with
  | [] => simp [dedupFirst]
  | y :: ys =>
      by_cases hxy : x = y
      · subst hxy
        simp [dedupFirst]
      · simp only [dedupFirst, List.mem_cons]
        rw [mem_dedupFirst (ys.filter (fun z => decide (z ≠ y))) x]
        simp [List.mem_filter, hxy]
  termination_by l.length
  decreasing_by
    simp only [List.length_cons]
    exact Nat.lt_succ_of_le (List.length_filter_le _ _)

theorem nodup_dedupFirst (l : List String) : (dedupFirst l).Nodup := by
  match l with
  | [] => simp [dedupFirst]
  | y :: ys =>
      simp only [dedupFirst]
      refine List.nodup_cons.mpr ⟨?_, nodup_dedupFirst _⟩
      intro hmem
      rw [mem_dedupFirst] at hmem
      have := (List.mem_filter.mp hmem).2
      simp at this
  termination_by l.length
  decreasing_by
    simp only [List.length_cons]
    exact Nat.lt_succ_of_le (List.length_filter_le _ _)

/-- The accumulator-based dedup loop of `namespace_dict` equals the direct
first-seen recursion. -/
theorem foldl_firstSeen_eq (l : List String) :
    ∀ acc : List String,
    l.foldl (fun acc x => if x ∈ acc then acc else acc ++ [x]) acc
      = acc ++ dedupFirst (l.filter (fun x => decide (x ∉ acc))) := by
  induction l with
  | nil => intro acc; simp [dedupFirst]
  | cons x xs ih =>
      intro acc
      by_cases hx : x ∈ acc
      · have : (x :: xs).filter (fun y => decide (y ∉ acc))
            = xs.filter (fun y => decide (y ∉ acc)) := by
          simp [List.filter_cons, hx]
        rw [this, List.foldl_cons, if_pos hx, ih]
      · have hfil : (x :: xs).filter (fun y => decide (y ∉ acc))
            = x :: xs.filter (fun y => decide (y ∉ acc)) := by
          simp [List.filter_cons, hx]
        have hfil2 : xs.filter (fun y => decide (y ∉ acc ++ [x]))
            = (xs.filter (fun y => decide (y ∉ acc))).filter
                (fun y => decide (y ≠ x)) := by
          rw [List.filter_filter]
          apply List.filter_congr
          intro a _
          by_cases h1 : a ∈ acc <;> by_cases h2 : a = x <;> simp [h1, h2]
        rw [List.foldl_cons, if_neg hx, ih, hfil, dedupFirst, hfil2]
        simp [List.append_assoc]

theorem firstSeen_eq_dedupFirst (l : List String) :
    firstSeen l = dedupFirst l := by
  unfold firstSeen
  rw [foldl_firstSeen_eq l []]
  have : l.filter (fun x => decide (x ∉ ([] : List String))) = l := by
    apply List.filter_eq_self.mpr
    intro a _
    simp
  rw [this, List.nil_append]

@[simp] theorem exc_bind_ok {ε α β : Type} (x : α) (f : α → Except ε β) :
    (Except.ok x >>= f) = f x := rfl

@[simp] theorem exc_bind_err {ε α β : Type} (e : ε) (f : α → Except ε β) :
    ((Except.error e : Except ε α) >>= f) = Except.error e := rfl

@[simp] theorem exc_map_ok {ε α β : Type} (f : α → β) (x : α) :
    (Except.ok x : Except ε α).map f = Except.ok (f x) := rfl

@[simp] theorem exc_map_err {ε α β : Type} (f : α → β) (e : ε) :
    (Except.error e : Except ε α).map f = Except.error e := rfl

@[simp] theorem exc_pure_eq {ε α : Type} (x : α) :
    (pure x : Except ε α) = Except.ok x := rfl

/-- A successful run of the sequential fetch loop means every link's body
was well-formed. -/
theorem fetchPages_all_ok (fb : Option String → Except PyErr RawContent)
    (ls : List String) (ts : List XTree) (h : fetchPages fb ls = .ok ts) :
    ∀ l ∈ ls, ∃ t, fb (some l) = .ok (.wellFormed t) := by
  induction ls generalizing ts with
  | nil => intro l hl; cases hl
  | cons l ls ih =>
      intro l' hl'
      rcases hfb : fb (some l) with e | r
      · simp [fetchPages, send_request, hfb] at h
      · cases r with
        | malformed => simp [fetchPages, send_request, hfb, convert_to_lxml_tree] at h
        | wellFormed t =>
            rcases hrest : fetchPages fb ls with e | ts'
            · simp [fetchPages, send_request, hfb, convert_to_lxml_tree, hrest] at h
            · rcases List.mem_cons.mp hl' with rfl | hl'
              · exact ⟨t, hfb⟩
              · exact ih ts' hrest l' hl'

/-- The first malformed body in the fetch list aborts the loop with
`ParseError`. -/
theorem fetchPages_first_malformed (fb : Option String → Except PyErr RawContent)
    (pre : List String) (l : String) (post : List String)
    (hpre : ∀ l' ∈ pre, ∃ t, fb (some l') = .ok (.wellFormed t))
    (hl : fb (some l) = .ok .malformed) :
    fetchPages fb (pre ++ l :: post) = .error .parseError := by
  induction pre with
  | nil => simp [fetchPages, send_request, hl, convert_to_lxml_tree]
  | cons p pre ih =>
      obtain ⟨t, ht⟩ := hpre p (by simp)
      have ihh := ih (fun l' hl' => hpre l' (List.mem_cons_of_mem _ hl'))
      simp [fetchPages, send_request, ht, convert_to_lxml_tree, ihh]

/-- `create_content_iterable` on an all-successful run: seed first, then
the fetched pages. -/
theorem cci_ok (fb : Option String → Except PyErr RawContent) (params : String)
    (seed : XTree) (T : Int) (rest : List XTree)
    (hseed : fb none = .ok (.wellFormed seed))
    (hT : total_record_count seed = .ok T)
    (hrest : fetchPages fb ((pagination_links_of params T).drop 1) = .ok rest) :
    create_content_iterable fb params = .ok (seed :: rest) := by
  have hrest' : fetchPages fb (pagination_links_of params T).tail = .ok rest := by
    rw [← List.drop_one]
    exact hrest
  unfold create_content_iterable pagination_links
  simp [send_request, hseed, convert_to_lxml_tree, hT, hrest']

/-- Metadata extraction failure on the seed propagates unchanged, before
any page fetch is consulted. -/
theorem cci_metadata_error (fb : Option String → Except PyErr RawContent)
    (params : String) (seed : XTree) (e : PyErr)
    (hseed : fb none = .ok (.wellFormed seed))
    (hT : total_record_count seed = .error e) :
    create_content_iterable fb params = .error e := by
  unfold create_content_iterable pagination_links
  simp [send_request, hseed, convert_to_lxml_tree, hT]

theorem parse_content_of_cci (fb : Option String → Except PyErr RawContent)
    (params : String) (docs : List XTree)
    (h : create_content_iterable fb params = .ok docs) :
    parse_content fb params = .ok ((docs.map get_entry_data).flatten) := by
  unfold parse_content
  simp [h]

theorem parse_content_of_cci_error (fb : Option String → Except PyErr RawContent)
    (params : String) (e : PyErr)
    (h : create_content_iterable fb params = .error e) :
    parse_content fb params = .error e := by
  unfold parse_content
  simp [h]

theorem pageRange_eq (T : Nat) :
    pageRange (T : Int)
      = (List.range ((T + 9) / 10 + 1)).map (fun k : Nat => (k : Int) * 10) := by
  unfold pageRange pyRangeTo response_size
  have h1 : (((T : Int) + (10 : Nat)).toNat + (10 - 1)) / 10 = (T + 9) / 10 + 1 := by
    omega
  rw [h1]
  apply List.map_congr_left
  intro k _
  norm_num

theorem pageRange_length (T : Nat) :
    (pageRange (T : Int)).length = (T + 9) / 10 + 1 := by
  rw [pageRange_eq]
  simp

theorem mem_pageRange_iff (T : Nat) (n : Int) :
    n ∈ pageRange (T : Int) ↔ ((10 : Int) ∣ n ∧ 0 ≤ n ∧ n < (T : Int) + 10) := by
  rw [pageRange_eq]
  simp only [List.mem_map, List.mem_range]
  constructor
  · rintro ⟨k, hk, rfl⟩
    refine ⟨⟨(k : Int), by ring⟩, by positivity, ?_⟩
    omega
  · rintro ⟨⟨m, rfl⟩, h0, hlt⟩
    refine ⟨m.toNat, by omega, by omega⟩

theorem pageRange_getLast (T : Nat) :
    (pageRange (T : Int)).getLast? = some ((((T + 9) / 10 : Nat) : Int) * 10) := by
  rw [pageRange_eq, List.range_succ, List.map_append]
  simp [List.getLast?_concat]

theorem pageRange_head (T : Nat) :
    (pageRange (T : Int)).head? = some 0 := by
  rw [pageRange_eq, List.range_succ_eq_map]
  simp

theorem pageRange_drop_pos (T : Nat) (n : Int)
    (h : n ∈ (pageRange (T : Int)).drop 1) : 10 ≤ n := by
  rw [pageRange_eq, List.range_succ_eq_map] at h
  simp only [List.map_cons, List.map_map, List.drop_succ_cons, List.drop_zero,
    List.mem_map, List.mem_range, Function.comp] at h
  obtain ⟨k, _, rfl⟩ := h
  have hk : (0 : Int) ≤ (k : Int) := by positivity
  push_cast
  nlinarith

/-! ## Claim theorems -/

/-- **C1** (amended).  For a seed total `T` and the fixed page size `S = 10`
the planner produces the offsets `range(0, T+10, 10)` — exactly
`⌈T/10⌉ + 1` of them (the claim's count `⌈(T+1)/10⌉` is wrong when
`10 ∤ T`): the ascending multiples of 10 from 0 up to and including the
first multiple ≥ `T`.  The offset-0 link heads the planner's list; the
fetch list handed to the (sequential) fetcher is exactly the tail, whose
offsets are all ≥ 10; and the seed page's entries still head the final
results. -/
theorem claim_C1_pagination_plan (T : Nat) (params : String) :
    ((pageRange (T : Int)).length = (T + 9) / 10 + 1
      ∧ (∀ n : Int, n ∈ pageRange (T : Int) ↔
          ((10 : Int) ∣ n ∧ 0 ≤ n ∧ n < (T : Int) + 10))
      ∧ (pageRange (T : Int)).getLast? = some ((((T + 9) / 10 : Nat) : Int) * 10)
      ∧ (T : Int) ≤ (((T + 9) / 10 : Nat) : Int) * 10)
    ∧ ((pagination_links_of params (T : Int)).head? = some (mkLink params 0)
      ∧ (pagination_links_of params (T : Int)).drop 1
          = ((pageRange (T : Int)).drop 1).map (mkLink params)
      ∧ (∀ n ∈ (pageRange (T : Int)).drop 1, 10 ≤ n))
    ∧ (∀ (fb : Option String → Except PyErr RawContent) (seed : XTree)
          (rest : List XTree),
        fb none = .ok (.wellFormed seed) →
        total_record_count seed = .ok (T : Int) →
        fetchPages fb ((pagination_links_of params (T : Int)).drop 1) = .ok rest →
        parse_content fb params
          = .ok (get_entry_data seed ++ (rest.map get_entry_data).flatten)) := by
  refine ⟨⟨pageRange_length T, mem_pageRange_iff T, pageRange_getLast T, ?_⟩,
    ⟨?_, ?_, pageRange_drop_pos T⟩, ?_⟩
  · have h : T ≤ (T + 9) / 10 * 10 := by omega
    exact_mod_cast h
  · unfold pagination_links_of
    rw [List.head?_map, pageRange_head]
    rfl
  · unfold pagination_links_of
    exact (List.map_drop (mkLink params) (pageRange (T : Int)) 1).symm
  · intro fb seed rest hseed hT hrest
    have hc := cci_ok fb params seed (T : Int) rest hseed hT hrest
    have hp := parse_content_of_cci fb params _ hc
    simpa using hp

/-- Witness for C1 at `T = 25`, `params = "P"`: the seed reporting
`start=25` yields three fetched pages and the final records start with the
seed's entries. -/
theorem claim_C1_pagination_plan_witness :
    parse_content fbGood "P"
      = .ok (get_entry_data seedDoc25
          ++ (([pageDoc, pageDoc, pageDoc]).map get_entry_data).flatten) :=
  (claim_C1_pagination_plan 25 "P").2.2 fbGood seedDoc25
    [pageDoc, pageDoc, pageDoc] rfl rfl rfl

/-- Counterexample to C1's offset count: at `T = 25` the planner emits 4
offsets (`[0, 10, 20, 30]`), but `⌈(T+1)/S⌉ = ⌈26/10⌉ = 3`. -/
theorem claim_C1_count_counterexample :
    (pageRange ((25 : Nat) : Int)).length = 4
      ∧ ((25 + 1) + 9) / 10 = 3
      ∧ (4 : Nat) ≠ 3 := by
  refine ⟨rfl, rfl, by decide⟩

/-- **C2** (amended).  At `T = 25` the planner's offsets are
`[0, 10, 20, 30]` (not `[0, 10, 20]`); at the divisible boundary `T = 20`
they are `[0, 10, 20]` as the claim says. -/
theorem claim_C2_offsets_concrete :
    pageRange (25 : Int) = [0, 10, 20, 30]
      ∧ pageRange (20 : Int) = [0, 10, 20] :=
  ⟨rfl, rfl⟩

/-- Counterexample to C2's first scenario: `range(0, 35, 10)` is
`[0, 10, 20, 30]`, which is not `[0, 10, 20]`. -/
theorem claim_C2_offsets_counterexample :
    pageRange (25 : Int) ≠ [0, 10, 20]
      ∧ pageRange (25 : Int) = [0, 10, 20, 30] := by
  refine ⟨by decide, rfl⟩

theorem dedupFirst_nil : dedupFirst [] = [] := by
  simp [dedupFirst]

theorem dedupFirst_cons (x : String) (xs : List String) :
    dedupFirst (x :: xs) = x :: dedupFirst (xs.filter (fun y => decide (y ≠ x))) := by
  simp [dedupFirst]

/-- **C5** (confirmed).  The namespace resolver assigns `ns<k>` to the k-th
distinct namespace URI in first-encounter pre-order document order; `ns0`
is the root's namespace; the resolver is a total function (it raises no
errors), and an element whose tag carries no namespace contributes the
empty string, which also receives an alias. -/
theorem claim_C5_namespace_resolver (t : XTree) :
    namespace_dict t
        = (dedupFirst (t.preorder.map (fun e => getFullNamespace e.tag))).enum.map
            (fun p => ("ns" ++ toString p.1, p.2))
    ∧ (namespace_dict t).head? = some ("ns0", getFullNamespace t.tag)
    ∧ (namespaceList t).Nodup
    ∧ (∀ ns, ns ∈ namespaceList t
        ↔ ∃ e, e ∈ t.preorder ∧ getFullNamespace e.tag = ns)
    ∧ (∀ e ∈ t.preorder, e.tag.toList.head? ≠ some '{' →
        getFullNamespace e.tag = "" ∧ "" ∈ namespaceList t) := by
  have hfd : namespaceList t
      = dedupFirst (t.preorder.map (fun e => getFullNamespace e.tag)) := by
    unfold namespaceList
    exact firstSeen_eq_dedupFirst _
  refine ⟨?_, ?_, ?_, ?_, ?_⟩
  · unfold namespace_dict
    rw [hfd]
  · obtain ⟨tag, a, x, c⟩ := t
    unfold namespace_dict namespaceList
    rw [firstSeen_eq_dedupFirst, preorder_node, List.map_cons, dedupFirst_cons]
    simp [List.enum_cons]
    exact rfl
  · rw [hfd]
    exact nodup_dedupFirst _
  · intro ns
    rw [hfd, mem_dedupFirst]
    exact List.mem_map
  · intro e he h
    refine ⟨getFullNamespace_of_head _ h, ?_⟩
    rw [hfd, mem_dedupFirst]
    exact List.mem_map.mpr ⟨e, he, getFullNamespace_of_head _ h⟩

/-- Witness for C5 on a document with a namespaced root and an untagged
child: `ns0` maps to the root's namespace and the empty namespace is
aliased too. -/
theorem claim_C5_namespace_resolver_witness :
    (namespace_dict mixedNsDoc).head? = some ("ns0", getFullNamespace mixedNsDoc.tag)
      ∧ getFullNamespace (XTree.node "plain" [] none []).tag = ""
      ∧ "" ∈ namespaceList mixedNsDoc := by
  have h := claim_C5_namespace_resolver mixedNsDoc
  have hmem : (XTree.node "plain" [] none []) ∈ mixedNsDoc.preorder := by
    rw [show mixedNsDoc.preorder
      = [mixedNsDoc, XTree.node "plain" [] none []] from rfl]
    exact List.mem_cons_of_mem _ (List.mem_cons_self _ _)
  have h5 := h.2.2.2.2 _ hmem (by decide)
  exact ⟨h.2.1, h5.1, h5.2⟩

/-- **C6** (amended).  When the seed document has no `rel="last"` link
under the primary namespace, extracting the total fails with `IndexError`
(the code has no `PaginationMetadataError`); when the `last` link's href
contains no `start=` at all the failure is `AttributeError` (the code's
regex is `start=(.*?)$`, not `start=(\d+)`), and a non-numeric suffix
gives `ValueError`.  Whatever the metadata error, it propagates before any
pagination fetch is attempted: the run's outcome is that error for every
possible page-fetch behaviour. -/
theorem claim_C6_metadata_failure (t : XTree) :
    (lastLinksOf t = [] → total_record_count t = .error .indexError)
    ∧ (∀ l rest, lastLinksOf t = l :: rest →
        ∀ href, dlookup l.attrib "href" = some href →
          afterStartEq href.toList = none →
          total_record_count t = .error .attributeError)
    ∧ (∀ l rest, lastLinksOf t = l :: rest →
        ∀ href suffix, dlookup l.attrib "href" = some href →
          afterStartEq href.toList = some suffix →
          pyIntParse (String.mk suffix) = none →
          total_record_count t = .error .valueError)
    ∧ (∀ e, total_record_count t = .error e →
        ∀ (fb : Option String → Except PyErr RawContent) (params : String),
          fb none = .ok (.wellFormed t) →
          create_content_iterable fb params = .error e
            ∧ parse_content fb params = .error e) := by
  refine ⟨?_, ?_, ?_, ?_⟩
  · intro h
    rw [total_record_count_def, h]
  · intro l rest h href hh ha
    rw [total_record_count_def, h]
    simp only [hh, ha]
  · intro l rest h href suffix hh ha hp
    rw [total_record_count_def, h]
    simp only [hh, ha, hp]
  · intro e he fb params hfb
    have hc := cci_metadata_error fb params t e hfb he
    exact ⟨hc, parse_content_of_cci_error fb params e hc⟩

/-- Witness for C6: a seed with no `last` link fails with `IndexError` and
the whole run surfaces it; a seed whose `last` href lacks `start=` fails
with `AttributeError`. -/
theorem claim_C6_metadata_failure_witness :
    total_record_count seedNoLast = .error .indexError
      ∧ total_record_count seedNoStart = .error .attributeError
      ∧ parse_content fbNoLast "P" = .error .indexError := by
  have h1 := (claim_C6_metadata_failure seedNoLast).1 rfl
  have h2 := (claim_C6_metadata_failure seedNoStart).2.1
    (.node "\x7bu\x7dlink" [("rel", "last"), ("href", "https://x?offset=25")] none [])
    [] rfl "https://x?offset=25" rfl rfl
  have h3 := ((claim_C6_metadata_failure seedNoLast).2.2.2 .indexError h1
    fbNoLast "P" rfl).2
  exact ⟨h1, h2, h3⟩

/-- Counterexample to C6's error name: on a seed without a `last` link the
code raises `IndexError` (from `last_link[0]`), which is not the
`PaginationMetadataError` the claim names — no such exception class exists
in the source. -/
theorem claim_C6_error_name_counterexample :
    total_record_count seedNoLast = .error .indexError
      ∧ (Except.error PyErr.indexError : Except PyErr Int)
          ≠ .error .paginationMetadataError := by
  refine ⟨rfl, ?_⟩
  intro h
  injection h with h2
  exact PyErr.noConfusion h2

/-- **C7** (confirmed).  A malformed page body raises `ParseError` rather
than yielding an empty record list, and any fetch/parse failure aborts the
whole operation: a successful result requires every requested body —
seed and every pagination page — to have been well-formed, so no partial
record list is ever returned. -/
theorem claim_C7_parse_error_aborts
    (fb : Option String → Except PyErr RawContent) (params : String) :
    (fb none = .ok .malformed → parse_content fb params = .error .parseError)
    ∧ (∀ seed T pre l post,
        fb none = .ok (.wellFormed seed) →
        total_record_count seed = .ok T →
        (pagination_links_of params T).drop 1 = pre ++ l :: post →
        (∀ l2 ∈ pre, ∃ t2, fb (some l2) = .ok (.wellFormed t2)) →
        fb (some l) = .ok .malformed →
        parse_content fb params = .error .parseError)
    ∧ (∀ recs, parse_content fb params = .ok recs →
        ∃ seed T, fb none = .ok (.wellFormed seed)
          ∧ total_record_count seed = .ok T
          ∧ ∀ l2 ∈ (pagination_links_of params T).drop 1,
              ∃ t2, fb (some l2) = .ok (.wellFormed t2)) := by
  refine ⟨?_, ?_, ?_⟩
  · intro h
    apply parse_content_of_cci_error
    unfold create_content_iterable
    simp [send_request, h, convert_to_lxml_tree]
  · intro seed T pre l post hseed hT hsplit hpre hl
    apply parse_content_of_cci_error
    have hf := fetchPages_first_malformed fb pre l post hpre hl
    unfold create_content_iterable pagination_links
    simp only [send_request, hseed, exc_bind_ok, convert_to_lxml_tree, hT,
      exc_map_ok]
    rw [hsplit, hf]
    rfl
  · intro recs h
    unfold parse_content at h
    rcases hc : create_content_iterable fb params with e | docs
    · rw [hc] at h
      exact Except.noConfusion h
    · unfold create_content_iterable at hc
      rcases hfb : fb none with e | r
      · simp only [send_request, hfb, exc_bind_err] at hc
        exact Except.noConfusion hc
      · cases r with
        | malformed =>
            simp only [send_request, hfb, exc_bind_ok, convert_to_lxml_tree,
              exc_bind_err] at hc
            exact Except.noConfusion hc
        | wellFormed seed =>
            rcases hT : total_record_count seed with e | T
            · simp only [send_request, hfb, exc_bind_ok, convert_to_lxml_tree,
                pagination_links, hT, exc_map_err, exc_bind_err] at hc
              exact Except.noConfusion hc
            · rcases hfp : fetchPages fb ((pagination_links_of params T).drop 1)
                with e | rest
              · simp only [send_request, hfb, exc_bind_ok, convert_to_lxml_tree,
                  pagination_links, hT, exc_map_ok, hfp, exc_bind_err] at hc
                exact Except.noConfusion hc
              · exact ⟨seed, T, rfl, hT, fetchPages_all_ok fb _ rest hfp⟩

/-- Witness for C7: a malformed seed body and a malformed first page body
both abort the whole run with `ParseError`. -/
theorem claim_C7_parse_error_aborts_witness :
    parse_content fbBadSeed "P" = .error .parseError
      ∧ parse_content fbBadPage "P" = .error .parseError := by
  have h1 := (claim_C7_parse_error_aborts fbBadSeed "P").1 rfl
  have hsplit : (pagination_links_of "P" (25 : Int)).drop 1
      = [] ++ mkLink "P" 10 :: [mkLink "P" 20, mkLink "P" 30] := by rfl
  have h2 := (claim_C7_parse_error_aborts fbBadPage "P").2.1 seedDoc25 25
    [] (mkLink "P" 10) [mkLink "P" 20, mkLink "P" 30] rfl rfl hsplit
    (by intro l2 hl2; cases hl2) rfl
  exact ⟨h1, h2⟩

/-- **C3** (amended).  Flattening the single-element entry
`<contractActionType description="BPA">E</contractActionType>` produces
exactly `{"contractActionType": "E",
"contractActionType__description": "BPA"}`; and every element carrying no
attributes contributes exactly one key — its clean tag name mapped to its
text — and that key contains `"__"` only when the clean tag name itself
does (the claim's unconditional "no key containing `__`" fails for such
tags). -/
theorem claim_C3_flatten_example :
    (flatten_entry [("ns0", "")] exampleEntry
      = [("contractActionType__description", some "BPA"),
         ("contractActionType", some "E")])
    ∧ (∀ (nsd : Dict String) (e : XTree), e.attrib = [] →
        generate_nested_attribute_dict nsd e = [(clean_tag nsd e.tag, e.text)]
          ∧ (hasDunder (clean_tag nsd e.tag) = false →
              ∀ k ∈ (generate_nested_attribute_dict nsd e).map Prod.fst,
                hasDunder k = false)) := by
  constructor
  · rfl
  · intro nsd e hattr
    obtain ⟨etag, eattrib, etext, ech⟩ := e
    simp only [XTree.attrib] at hattr
    subst hattr
    have hdict : generate_nested_attribute_dict nsd (.node etag [] etext ech)
        = [(clean_tag nsd (XTree.tag (.node etag [] etext ech)),
            XTree.text (.node etag [] etext ech))] := rfl
    refine ⟨hdict, ?_⟩
    intro hcl k hk
    rw [hdict] at hk
    simp only [List.map_cons, List.map_nil, List.mem_singleton] at hk
    subst hk
    exact hcl

/-- Witness for C3's universal part at the attribute-less element
`<ns1:title>x</ns1:title>`: one key, the clean tag, no `"__"` key. -/
theorem claim_C3_flatten_example_witness :
    generate_nested_attribute_dict [("ns0", "u")]
        (.node "\x7bu\x7dtitle" [] (some "x") []) = [("title", some "x")]
      ∧ ∀ k ∈ (generate_nested_attribute_dict [("ns0", "u")]
          (.node "\x7bu\x7dtitle" [] (some "x") [])).map Prod.fst,
          hasDunder k = false := by
  have h := claim_C3_flatten_example.2 [("ns0", "u")]
    (.node "\x7bu\x7dtitle" [] (some "x") []) rfl
  exact ⟨h.1.trans (by rfl), h.2 (by rfl)⟩

/-- Counterexample to C3's "no key containing `__`": the attribute-less
element `<a__b>t</a__b>` flattens to the single key `"a__b"`, which does
contain `"__"`. -/
theorem claim_C3_dunder_counterexample :
    generate_nested_attribute_dict [("ns0", "u")] dunderTagElem
        = [("a__b", some "t")]
      ∧ hasDunder "a__b" = true :=
  ⟨rfl, rfl⟩

/-- **C4** (amended).  For an entry whose elements have well-formed
attribute dictionaries (distinct names, as Python guarantees) and no
attribute name colliding with a generated `tag__attr` key of the same
element, the flattened record is exactly last-write-wins over the write
sequence of the depth-first (pre-order) visit — one `tag ↦ text` write per
element plus one `tag__attr ↦ value` write per attribute — so it has one
key per distinct written name, the later occurrence winning.  (Without the
collision proviso the `del` on line 100 can remove a pair's key entirely,
which the counterexample exhibits.) -/
theorem claim_C4_flatten_lww (nsd : Dict String) (entry : XTree)
    (hnd : ∀ e ∈ entry.preorder, (e.attrib.map Prod.fst).Nodup)
    (hcoll : ∀ e ∈ entry.preorder, ∀ k ∈ e.attrib.map Prod.fst,
        ∀ k' ∈ e.attrib.map Prod.fst, clean_tag nsd e.tag ++ "__" ++ k ≠ k') :
    (∀ key, dlookup (flatten_entry nsd entry) key
        = lwwLookup (entryWrites nsd entry) key)
    ∧ (∀ key, (dlookup (flatten_entry nsd entry) key).isSome
        ↔ key ∈ (entryWrites nsd entry).map Prod.fst) := by
  have hmain : ∀ key, dlookup (flatten_entry nsd entry) key
      = lwwLookup (entryWrites nsd entry) key := by
    intro key
    unfold flatten_entry entryWrites
    rw [dlookup_flatten_fold nsd entry.preorder hnd hcoll [] key]
    rfl
  exact ⟨hmain, fun key => by rw [hmain key]; exact lwwLookup_isSome_iff _ key⟩

/-- Witness for C4 at a concrete entry with a repeated child tag `x`:
the later write wins (`"2"`), and a never-written key is absent. -/
theorem claim_C4_flatten_lww_witness :
    dlookup (flatten_entry [("ns0", "")]
        (.node "e" [] none
          [.node "x" [] (some "1") [], .node "x" [] (some "2") []])) "x"
      = some (some "2")
    ∧ ((dlookup (flatten_entry [("ns0", "")]
          (.node "e" [] none
            [.node "x" [] (some "1") [], .node "x" [] (some "2") []])) "nope").isSome
        ↔ "nope" ∈ (entryWrites [("ns0", "")]
            (.node "e" [] none
              [.node "x" [] (some "1") [], .node "x" [] (some "2") []])).map Prod.fst) := by
  have hnd : ∀ e ∈ (XTree.node "e" [] none
      [.node "x" [] (some "1") [], .node "x" [] (some "2") []]).preorder,
      ((e.attrib).map Prod.fst).Nodup := by
    intro e he
    simp only [XTree.preorder, preorderList, List.append_nil, List.cons_append,
      List.nil_append, List.mem_cons, List.not_mem_nil, or_false] at he
    rcases he with rfl | rfl | rfl <;> decide
  have hcoll : ∀ e ∈ (XTree.node "e" [] none
      [.node "x" [] (some "1") [], .node "x" [] (some "2") []]).preorder,
      ∀ k ∈ (e.attrib).map Prod.fst, ∀ k' ∈ (e.attrib).map Prod.fst,
        clean_tag [("ns0", "")] e.tag ++ "__" ++ k ≠ k' := by
    intro e he
    simp only [XTree.preorder, preorderList, List.append_nil, List.cons_append,
      List.nil_append, List.mem_cons, List.not_mem_nil, or_false] at he
    rcases he with rfl | rfl | rfl <;> simp [XTree.attrib]
  have h := claim_C4_flatten_lww [("ns0", "")]
    (.node "e" [] none [.node "x" [] (some "1") [], .node "x" [] (some "2") []])
    hnd hcoll
  exact ⟨(h.1 "x").trans (by rfl), h.2 "nope"⟩

/-- Counterexample to C4 as stated: in
`<a b="B" a__b="C">T</a>` the attribute pair `(a, b)` exists, yet the
flattened record has no key `"a__b"` at all — the loop's `del` removed it
— instead of the claimed one key per unique `(tag, attribute)` pair. -/
theorem claim_C4_pair_key_counterexample :
    flatten_entry [("ns0", "u")] collidingEntry
        = [("a__a__b", some "C"), ("a", some "T")]
      ∧ dlookup (flatten_entry [("ns0", "u")] collidingEntry)
          ("a" ++ "__" ++ "b") = none
      ∧ ("b", "B") ∈ collidingEntry.attrib :=
  ⟨rfl, rfl, by decide⟩

/-- **C8** (amended).  After the synchronous seed request, the remaining
page requests are issued strictly sequentially — the `for` loop blocks on
each `send_request`, so request `i` completes before request `i+1`
starts.  At every instant at most *one* page fetch is outstanding; a
fortiori the claimed ceiling of 10 is never exceeded, even for 50 or more
pages — but the requests are not issued concurrently at all. -/
theorem claim_C8_sequential_fetch :
    (∀ (links : List String) (now : Nat),
        outstandingAt (seqTrace links) now ≤ 1
          ∧ outstandingAt (seqTrace links) now ≤ 10)
    ∧ (∀ (params : String) (T : Nat) (now : Nat),
        outstandingAt
          (seqTrace ((pagination_links_of params (T : Int)).drop 1)) now ≤ 1) := by
  have hgen : ∀ (links : List String) (now : Nat),
      outstandingAt (seqTrace links) now ≤ 1 := by
    intro links now
    rw [outstandingAt_seqTrace]
    split <;> omega
  exact ⟨fun links now =>
      ⟨hgen links now, le_trans (hgen links now) (by omega)⟩,
    fun params T now => hgen _ now⟩

set_option maxRecDepth 4000 in
/-- Counterexample to C8's "issued concurrently": with the 50-page fetch
list of a `T = 499` seed, no instant ever has two (or more) fetches in
flight — the maximum number of simultaneously outstanding requests is
exactly 1, not a concurrency ceiling of 10 being exercised. -/
theorem claim_C8_concurrency_counterexample :
    ((pagination_links_of "PARAMS" (499 : Int)).drop 1).length = 50
      ∧ everConcurrent
          (seqTrace ((pagination_links_of "PARAMS" (499 : Int)).drop 1)) = false
      ∧ maxOutstanding
          (seqTrace ((pagination_links_of "PARAMS" (499 : Int)).drop 1)) = 1 := by
  refine ⟨rfl, by decide, by decide⟩

/-- **C9** (confirmed).  Extracting and flattening entries never mutates
the parsed tree: the element that `_generate_nested_attribute_dict` leaves
behind is identical to the input (the loop copies the attribute dictionary
and deletes only from the copy), and hence every element visited by
`get_entry_data`'s traversal is unchanged — same tag, text and attribute
mapping. -/
theorem claim_C9_no_tree_mutation :
    (∀ (nsd : Dict String) (e : XTree), elementAfterGen nsd e = e)
    ∧ (∀ (nsd : Dict String) (t : XTree),
        t.preorder.map (elementAfterGen nsd) = t.preorder) := by
  refine ⟨elementAfterGen_eq, ?_⟩
  intro nsd t
  have h : ∀ e ∈ t.preorder, elementAfterGen nsd e = id e :=
    fun e _ => elementAfterGen_eq nsd e
  rw [List.map_congr_left h, List.map_id]

/-- **C10** (confirmed).  Constructing `fpdsRequest` with zero keyword
parameters raises `ValueError` for every value of `cli_run` and every
validation configuration (so before any network activity or per-field
validation), while a nonempty `cli_run = True` construction succeeds
without consulting the validation table at all. -/
theorem claim_C10_empty_kwargs (cli : Bool) (fields : List FieldCfg)
    (rm : String → String → Bool) :
    fpdsRequest_init cli [] fields rm = .error .valueError
    ∧ (∀ kwargs : List (String × String), kwargs ≠ [] →
        fpdsRequest_init true kwargs fields rm = .ok ⟨true, kwargs⟩) := by
  constructor
  · rfl
  · intro kwargs h
    unfold fpdsRequest_init
    have hne : kwargs.isEmpty = false := by
      cases kwargs with
      | nil => exact absurd rfl h
      | cons a l => rfl
    rw [hne]
    simp

/-- Witness for C10: empty kwargs fail identically under both `cli_run`
values and arbitrary configurations; a nonempty `cli_run = True` request
succeeds even under a rejecting regex oracle. -/
theorem claim_C10_empty_kwargs_witness :
    fpdsRequest_init false [] [] (fun _ _ => true) = .error .valueError
    ∧ fpdsRequest_init true [("LAST_MOD_DATE", "x")] [] (fun _ _ => false)
        = .ok ⟨true, [("LAST_MOD_DATE", "x")]⟩ :=
  ⟨(claim_C10_empty_kwargs false [] (fun _ _ => true)).1,
   (claim_C10_empty_kwargs true [] (fun _ _ => false)).2
     [("LAST_MOD_DATE", "x")] (by decide)⟩

end Fpds

